import Mathlib

/-!
Shallow embedding of the `ts-designed` Optional hierarchy
(`src/src/Entity/EntitySerializer.ts`, second part of the file) and of
`EntitySerializer.mapOut`/`performMapOut` (first part of the file), together
with theorems settling the specification claims about them.

JavaScript values of payload type `A` are modelled as `Nullable A`, making the
two null-equivalent JavaScript values (`null` and `undefined`) explicit: the
source classifies with `value == null`, which is true exactly for those two.
`PresentOptional` stores whatever it is constructed with, without any check
(the source constructor is `constructor(private value: T)`), so the held slot
is a `Nullable A`; the non-null invariant is a theorem about the public
constructors, not a typing assumption.

Fallible operations (`get`, `orThrow`) return `Except JSError _`.  Transforms
supplied by the caller may have side effects in JavaScript; where a claim is
about invocation counts the combinators are additionally embedded with the
caller-supplied function as an explicit state transformer (`...St` versions),
which is the same source code with the effect of the callback made visible.
-/

namespace Designed

/-- A JavaScript value of payload type `A` that may also be `null` or
`undefined`.  The source tests null-equivalence with `value == null`, true
exactly for the first two constructors. -/
inductive Nullable (A : Type) where
  | null : Nullable A
  | undefined : Nullable A
  | val (a : A) : Nullable A
deriving DecidableEq, Repr

/-- The JavaScript test `value == null` (loose equality), true exactly for
`null` and `undefined`. -/
def Nullable.isNullEquiv : Nullable A → Bool
  | .null => true
  | .undefined => true
  | .val _ => false

/-- The synchronous optional: a discriminated union of the two concrete
classes `PresentOptional` (which stores its constructor argument unchecked)
and `AbsentOptional`. -/
inductive Optional (A : Type) where
  | present (value : Nullable A)
  | absent
deriving DecidableEq, Repr

/-- Errors of the source: `OptionalValueMissingError extends Error`,
`TypeError`, and plain `Error` values.  All three are `instanceof Error` in
JavaScript. -/
inductive JSError where
  | optionalValueMissing (msg : String)
  | typeError (msg : String)
  | error (msg : String)
deriving DecidableEq, Repr

/-- Message of the `OptionalValueMissingError` thrown by `AbsentOptional.get`. -/
def getMissingMsg : String :=
  ".get() was called on an optional that had no value. Add a check before unwrapping."

/-- Message of the `TypeError` thrown by `AbsentOptional.orThrow` when the
callback neither throws nor returns an `Error`. -/
def orThrowTypeErrorMsg : String :=
  "Optional.orThrow callback did not throw or return an error"

/-- Argument shape of `Optional.of`, whose source signature is
`value: T | Optional<NonNullable<T>>`: either a raw (possibly null-equivalent)
value or an already-built optional. -/
inductive OfArg (A : Type) where
  | raw (v : Nullable A)
  | opt (o : Optional A)

/-- `Optional.of`: return an `Optional` argument unchanged
(`if (value instanceof Optional) return value`); otherwise classify with
`value == null` into `AbsentOptional` or `PresentOptional`. -/
def Optional.of (value : OfArg A) : Optional A :=
  match value with
  | .opt o => o
  | .raw v => if v.isNullEquiv then .absent else .present v

/-- `Optional.fromJSON`: defined in the source as `Optional.of(data)`. -/
def Optional.fromJSON (data : Nullable A) : Optional A :=
  Optional.of (.raw data)

/-- `Optional.empty`: `new AbsentOptional()`. -/
def Optional.empty : Optional A := .absent

/-- `isPresent`: `true` on the present class, `false` on the absent one. -/
def Optional.isPresent : Optional A → Bool
  | .present _ => true
  | .absent => false

/-- `isAbsent`: `false` on the present class, `true` on the absent one. -/
def Optional.isAbsent : Optional A → Bool
  | .present _ => false
  | .absent => true

/-- `filter`: on `PresentOptional`, `transform(this.value) ? new
PresentOptional(this.value) : new AbsentOptional()`; on `AbsentOptional`,
`new AbsentOptional()`. -/
def Optional.filter (o : Optional A) (predicate : Nullable A → Bool) : Optional A :=
  match o with
  | .present value => if predicate value then .present value else .absent
  | .absent => .absent

/-- `map`: on `PresentOptional`, `Optional.of(transform(this.value))`; on
`AbsentOptional`, `new AbsentOptional()`. -/
def Optional.map (o : Optional A) (transform : Nullable A → Nullable B) : Optional B :=
  match o with
  | .present value => Optional.of (.raw (transform value))
  | .absent => .absent

/-- `flatMap`: on `PresentOptional`, `transform(this.value)` returned directly;
on `AbsentOptional`, `new AbsentOptional()`. -/
def Optional.flatMap (o : Optional A) (transform : Nullable A → Optional B) : Optional B :=
  match o with
  | .present value => transform value
  | .absent => .absent

/-- `orElse`: the held value on the present class (argument ignored, it is a
plain value and never invoked), the fallback on the absent one. -/
def Optional.orElse (o : Optional A) (other : Nullable A) : Nullable A :=
  match o with
  | .present value => value
  | .absent => other

/-- `orGet`: the held value on the present class, `supplier()` on the absent
one. -/
def Optional.orGet (o : Optional A) (supplier : Unit → Nullable A) : Nullable A :=
  match o with
  | .present value => value
  | .absent => supplier ()

/-- Outcome of invoking the `errThrower` callback handed to `orThrow`: the
callback can itself throw, return a value that is `instanceof Error`, or
return anything else. -/
inductive ErrThrowerOutcome where
  | thrown (e : JSError)
  | returnedError (e : JSError)
  | returnedNonError
deriving DecidableEq, Repr

/-- `orThrow`: on the present class return the held value (the callback
parameter is not even declared, so it is never invoked).  On the absent class:
`const err = errThrower()` (a throw inside the callback propagates), then
`throw err` if `err instanceof Error`, else throw the fixed `TypeError`. -/
def Optional.orThrow (o : Optional A) (errThrower : Unit → ErrThrowerOutcome) :
    Except JSError (Nullable A) :=
  match o with
  | .present value => .ok value
  | .absent =>
    match errThrower () with
    | .thrown e => .error e
    | .returnedError e => .error e
    | .returnedNonError => .error (.typeError orThrowTypeErrorMsg)

/-- `get`: the held value on the present class; on the absent class, throw
`OptionalValueMissingError` with the fixed message. -/
def Optional.get : Optional A → Except JSError (Nullable A)
  | .present value => .ok value
  | .absent => .error (.optionalValueMissing getMissingMsg)

/-- `toJSON(_: string)`: the held value on the present class, `null` on the
absent one; the key parameter is ignored by both implementations. -/
def Optional.toJSON (o : Optional A) (_ : String) : Nullable A :=
  match o with
  | .present value => value
  | .absent => .null

/-- `asJSON`: the held value on the present class, `null` on the absent one. -/
def Optional.asJSON : Optional A → Nullable A
  | .present value => value
  | .absent => .null

/-- `map` with the caller-supplied transform embedded as a state transformer,
making the side effect of the single JavaScript call
`Optional.of(transform(this.value))` visible; same source method as
`Optional.map`. -/
def Optional.mapSt {S : Type} (o : Optional A)
    (transform : Nullable A → S → S × Nullable B) (s : S) : S × Optional B :=
  match o with
  | .present value =>
    let r := transform value s
    (r.1, Optional.of (.raw r.2))
  | .absent => (s, .absent)

/-- `filter` with the caller-supplied predicate embedded as a state
transformer; same source method as `Optional.filter`. -/
def Optional.filterSt {S : Type} (o : Optional A)
    (predicate : Nullable A → S → S × Bool) (s : S) : S × Optional A :=
  match o with
  | .present value =>
    let r := predicate value s
    (r.1, if r.2 then .present value else .absent)
  | .absent => (s, .absent)

/-- `flatMap` with the caller-supplied transform embedded as a state
transformer; same source method as `Optional.flatMap`. -/
def Optional.flatMapSt {S : Type} (o : Optional A)
    (transform : Nullable A → S → S × Optional B) (s : S) : S × Optional B :=
  match o with
  | .present value => transform value s
  | .absent => (s, .absent)

/-- `orThrow` with the `errThrower` callback embedded as a state transformer;
same source method as `Optional.orThrow`. -/
def Optional.orThrowSt {S : Type} (o : Optional A)
    (errThrower : S → S × ErrThrowerOutcome) (s : S) : S × Except JSError (Nullable A) :=
  match o with
  | .present value => (s, .ok value)
  | .absent =>
    let r := errThrower s
    (r.1,
      match r.2 with
      | .thrown e => .error e
      | .returnedError e => .error e
      | .returnedNonError => .error (.typeError orThrowTypeErrorMsg))

/-- Modelled from the spec: the file `AsyncOptional.ts` (classes
`AsyncOptional`, `PresentAsyncOptional`, `AbsentAsyncOptional`) is imported by
the source but is not part of the repository snapshot.  Per the spec,
`PresentAsyncOptional` wraps a pending computation whose eventual resolution
is classified as a synchronous Optional, and `AbsentAsyncOptional` is an
eagerly decided absent outcome; a pending computation is modelled by the value
it eventually resolves to. -/
inductive AsyncOptional (A : Type) where
  | presentAsync (pending : Nullable A)
  | absentAsync
deriving DecidableEq, Repr

/-- Modelled from the spec: `PresentAsyncOptional.fromPromise` lifts a pending
computation of a possibly-null value into the async hierarchy. -/
def AsyncOptional.fromPromise (pending : Nullable A) : AsyncOptional A :=
  .presentAsync pending

/-- Modelled from the spec: awaiting an async optional yields a synchronous
Optional, classifying the resolved value of the pending computation. -/
def AsyncOptional.resolve : AsyncOptional A → Optional A
  | .presentAsync pending => Optional.of (.raw pending)
  | .absentAsync => .absent

/-- Return shape of the transform handed to `flatMapAsync`, whose source
signature is `AsyncOptional<X> | Promise<Optional<X>>`; a promise is modelled
by the Optional it resolves to. -/
inductive FlatMapAsyncArg (B : Type) where
  | async (a : AsyncOptional B)
  | promiseOfOptional (p : Optional B)

/-- The normalization step `.then((v) => v.orElse(null))` in
`PresentOptional.flatMapAsync`: resolve whichever shape the transform
returned and unwrap the held value with `orElse(null)`. -/
def FlatMapAsyncArg.thenOrElseNull : FlatMapAsyncArg B → Nullable B
  | .async a => a.resolve.orElse .null
  | .promiseOfOptional p => p.orElse .null

/-- `flatMapAsync`: on `PresentOptional`,
`PresentAsyncOptional.fromPromise(transform(this.value).then((v) => v.orElse(null)))`;
on `AbsentOptional`, `new AbsentAsyncOptional()`. -/
def Optional.flatMapAsync (o : Optional A)
    (transform : Nullable A → FlatMapAsyncArg B) : AsyncOptional B :=
  match o with
  | .present value => AsyncOptional.fromPromise (transform value).thenOrElseNull
  | .absent => .absentAsync

/-- `mapAsync`: on `PresentOptional`,
`PresentAsyncOptional.fromPromise(transform(this.value))` with the promise
modelled by its resolved value; on `AbsentOptional`,
`new AbsentAsyncOptional()`. -/
def Optional.mapAsync (o : Optional A)
    (transform : Nullable A → Nullable B) : AsyncOptional B :=
  match o with
  | .present value => AsyncOptional.fromPromise (transform value)
  | .absent => .absentAsync

/-- `flatMapAsync` with the caller-supplied transform embedded as a state
transformer; same source method as `Optional.flatMapAsync`. -/
def Optional.flatMapAsyncSt {S : Type} (o : Optional A)
    (transform : Nullable A → S → S × FlatMapAsyncArg B) (s : S) : S × AsyncOptional B :=
  match o with
  | .present value =>
    let r := transform value s
    (r.1, AsyncOptional.fromPromise r.2.thenOrElseNull)
  | .absent => (s, .absentAsync)

/-!
Embedding of `EntitySerializer.mapOut` / `performMapOut`.  A JavaScript object
is modelled extensionally as a total map from property names to values of an
abstract value type `V`; `target[k] = v` is pointwise update.  The three
mapping shapes distinguished by `isSameTypeMap` (a string), `isDirectMap`
(`"field" in f && "map" in f`) and `isIndirectMap` (`"from" in f && "map" in f`,
with `map` holding `to` and `with`) form a disjoint union under the typed
`MapOutArg` signature.  The source field names `from` and `with` are Lean
keywords (as is `to`) and are rendered `frm`, `withMap` and `toKey`. -/
inductive MapOutArg (V : Type) where
  | sameTypeMap (field : String)
  | mapDirect (field : String) (map : V → V)
  | mapIndirect (frm : String) (toKey : String) (withMap : V → V)

/-- The assignment `target[key] = value` on an extensionally modelled object. -/
def setProp (target : String → V) (key : String) (value : V) : String → V :=
  fun k => if k = key then value else target k

/-- One iteration of the `mappings.forEach` loop body of `performMapOut`:
`target[mapping] = instance[mapping]` for a string mapping,
`target[field] = map(instance[field])` for a direct map, and
`target[to] = mapper(instance[from])` for an indirect map. -/
def applyMapping (inst : String → V) (target : String → V) :
    MapOutArg V → (String → V)
  | .sameTypeMap field => setProp target field (inst field)
  | .mapDirect field map => setProp target field (map (inst field))
  | .mapIndirect frm toKey mapper => setProp target toKey (mapper (inst frm))

/-- `performMapOut`: run the `forEach` loop over the mappings, threading the
mutated target, and return the target. -/
def performMapOut (inst : String → V) (target : String → V)
    (mappings : List (MapOutArg V)) : String → V :=
  mappings.foldl (applyMapping inst) target

/-- `mapOut`: delegates to `performMapOut` on the same target and fields. -/
def mapOut (inst : String → V) (target : String → V)
    (fields : List (MapOutArg V)) : String → V :=
  performMapOut inst target fields

/-- The single target property a mapping writes: the string itself for a
same-type mapping, `field` for a direct map, `to` for an indirect map. -/
def MapOutArg.targetKey : MapOutArg V → String
  | .sameTypeMap field => field
  | .mapDirect field _ => field
  | .mapIndirect _ toKey _ => toKey

/-- The value a mapping writes into its target property, read from the
serialized instance. -/
def MapOutArg.writtenValue (inst : String → V) : MapOutArg V → V
  | .sameTypeMap field => inst field
  | .mapDirect field map => map (inst field)
  | .mapIndirect frm _ mapper => mapper (inst frm)

/-- The last mapping in the list whose target property is `k`, if any: the
write that survives after the whole loop has run. -/
def lastMappingFor (ms : List (MapOutArg V)) (k : String) : Option (MapOutArg V) :=
  match ms with
  | [] => none
  | m :: rest =>
    match lastMappingFor rest k with
    | some m2 => some m2
    | none => if m.targetKey = k then some m else none

/-- The non-null invariant of the Optional hierarchy: a present instance
holds a value that is not null-equivalent.  An absent instance satisfies it
vacuously. -/
def Optional.wellFormed : Optional A → Prop
  | .present w => w.isNullEquiv = false
  | .absent => True

/-- Helper: one loop iteration of `performMapOut`, observed at a property `k`,
writes the mapping value when `k` is the mapping target and leaves `k`
untouched otherwise. -/
theorem applyMapping_eq (V : Type) (inst target : String → V) (m : MapOutArg V)
    (k : String) :
    applyMapping inst target m k
      = if m.targetKey = k then m.writtenValue inst else target k := by
  cases m with
  | sameTypeMap field =>
    by_cases h : k = field
    · simp [applyMapping, setProp, MapOutArg.targetKey, MapOutArg.writtenValue, h]
    · simp [applyMapping, setProp, MapOutArg.targetKey, MapOutArg.writtenValue, h, Ne.symm h]
  | mapDirect field map =>
    by_cases h : k = field
    · simp [applyMapping, setProp, MapOutArg.targetKey, MapOutArg.writtenValue, h]
    · simp [applyMapping, setProp, MapOutArg.targetKey, MapOutArg.writtenValue, h, Ne.symm h]
  | mapIndirect frm toKey mapper =>
    by_cases h : k = toKey
    · simp [applyMapping, setProp, MapOutArg.targetKey, MapOutArg.writtenValue, h]
    · simp [applyMapping, setProp, MapOutArg.targetKey, MapOutArg.writtenValue, h, Ne.symm h]

/-- Claim C1: `Optional.of` classifies by nullability.  For a non-null raw
value the result is present, with `get` returning exactly the value; for a
null-equivalent raw value the result is absent, and `get` throws
`OptionalValueMissingError`. -/
theorem of_classification (A : Type) (v : Nullable A) :
    (v.isNullEquiv = false →
      (Optional.of (OfArg.raw v)).isPresent = true ∧
      (Optional.of (OfArg.raw v)).get = Except.ok v) ∧
    (v.isNullEquiv = true →
      (Optional.of (OfArg.raw v)).isAbsent = true ∧
      (Optional.of (OfArg.raw v)).get
        = Except.error (JSError.optionalValueMissing getMissingMsg)) := by
  constructor
  · intro h
    simp [Optional.of, h, Optional.isPresent, Optional.get]
  · intro h
    simp [Optional.of, h, Optional.isAbsent, Optional.get]

/-- Claim C1 witness, at the concrete inputs `5` and `null`. -/
theorem of_classification_witness :
    ((Optional.of (OfArg.raw (Nullable.val (5 : Nat)))).isPresent = true ∧
      (Optional.of (OfArg.raw (Nullable.val (5 : Nat)))).get
        = Except.ok (Nullable.val 5)) ∧
    ((Optional.of (OfArg.raw (Nullable.null : Nullable Nat))).isAbsent = true ∧
      (Optional.of (OfArg.raw (Nullable.null : Nullable Nat))).get
        = Except.error (JSError.optionalValueMissing getMissingMsg)) :=
  ⟨(of_classification Nat (Nullable.val 5)).1 rfl,
   (of_classification Nat Nullable.null).2 rfl⟩

/-- Claim C2: `map` on a present optional applies the transform and
re-classifies the result through `of`, so a null-equivalent transform result
yields an absent optional, and a non-null result a present one; in particular
`Optional.of(v).map(() => null)` is absent for every non-null `v`, and `map`
on an absent optional is absent. -/
theorem map_reclassifies (A B : Type) (v : Nullable A)
    (t : Nullable A → Nullable B) :
    (Optional.present v).map t = Optional.of (OfArg.raw (t v)) ∧
    ((t v).isNullEquiv = true → (Optional.present v).map t = Optional.absent) ∧
    (∀ b, t v = Nullable.val b →
      (Optional.present v).map t = Optional.present (Nullable.val b)) ∧
    (v.isNullEquiv = false →
      (Optional.of (OfArg.raw v)).map (fun _ => (Nullable.null : Nullable B))
        = Optional.absent) ∧
    (Optional.absent : Optional A).map t = Optional.absent := by
  refine ⟨rfl, ?_, ?_, ?_, rfl⟩
  · intro h
    simp [Optional.map, Optional.of, h]
  · intro b hb
    simp [Optional.map, Optional.of, hb, Nullable.isNullEquiv]
  · intro h
    cases v with
    | null => simp [Nullable.isNullEquiv] at h
    | undefined => simp [Nullable.isNullEquiv] at h
    | val x =>
      simp [Optional.of, Optional.map,
        show (Nullable.val x).isNullEquiv = false from rfl,
        show (Nullable.null : Nullable B).isNullEquiv = true from rfl]

/-- Claim C2 witness: mapping the constant-null transform over a present
optional holding `7` gives an absent optional. -/
theorem map_reclassifies_witness :
    (Optional.present (Nullable.val (7 : Nat))).map
        (fun _ => (Nullable.null : Nullable Nat)) = Optional.absent ∧
    (Optional.of (OfArg.raw (Nullable.val (7 : Nat)))).map
        (fun _ => (Nullable.null : Nullable Nat)) = Optional.absent :=
  ⟨(map_reclassifies Nat Nat (Nullable.val 7) (fun _ => Nullable.null)).2.1 rfl,
   (map_reclassifies Nat Nat (Nullable.val 7) (fun _ => Nullable.null)).2.2.2.1 rfl⟩

/-- Claim C3: functor composition.  When `f` does not return a null-equivalent
value at the held value, and `g` does not at `f` of it, mapping `f` then `g`
equals mapping the composition. -/
theorem map_composition (A B C : Type) (a : Nullable A)
    (f : Nullable A → Nullable B) (g : Nullable B → Nullable C)
    (hf : (f a).isNullEquiv = false) (hg : (g (f a)).isNullEquiv = false) :
    ((Optional.of (OfArg.raw a)).map f).map g
      = (Optional.of (OfArg.raw a)).map (fun x => g (f x)) := by
  cases a with
  | null => simp [Optional.of, Optional.map, Nullable.isNullEquiv]
  | undefined => simp [Optional.of, Optional.map, Nullable.isNullEquiv]
  | val x =>
    simp [Optional.of, Optional.map, hf,
      show (Nullable.val x).isNullEquiv = false from rfl]

/-- Claim C3 witness, at constant non-null transforms over the value `1`. -/
theorem map_composition_witness :
    ((Optional.of (OfArg.raw (Nullable.val (1 : Nat)))).map
        (fun _ => Nullable.val (2 : Nat))).map (fun _ => Nullable.val (3 : Nat))
      = (Optional.of (OfArg.raw (Nullable.val (1 : Nat)))).map
          (fun x => (fun _ => Nullable.val (3 : Nat))
            ((fun _ => Nullable.val (2 : Nat)) x)) :=
  map_composition Nat Nat Nat (Nullable.val 1) (fun _ => Nullable.val 2)
    (fun _ => Nullable.val 3) rfl rfl

/-- Claim C4: `flatMap` on a present optional returns the transform result
directly, with no re-wrapping or re-classification; on an absent optional it
returns absent without invoking the transform (callback state untouched in
the effectful embedding). -/
theorem flatMap_is_join (A B : Type) (v : Nullable A)
    (t : Nullable A → Optional B) :
    (Optional.present v).flatMap t = t v ∧
    (∀ (S : Type) (f : Nullable A → S → S × Optional B) (s : S),
      Optional.flatMapSt (Optional.absent : Optional A) f s
        = (s, Optional.absent)) ∧
    (Optional.absent : Optional A).flatMap t = Optional.absent :=
  ⟨rfl, fun _ _ _ => rfl, rfl⟩

/-- Claim C5: `flatMapAsync` on a present optional normalizes both transform
return shapes (an async optional, or a pending computation of a synchronous
optional) by resolving and unwrapping via `orElse(null)` before re-lifting
through `fromPromise`; on an absent optional it returns the absent async
instance without invoking the transform. -/
theorem flatMapAsync_normalizes (A B : Type) (v : Nullable A)
    (t : Nullable A → FlatMapAsyncArg B) :
    (Optional.present v).flatMapAsync t
      = AsyncOptional.fromPromise ((t v).thenOrElseNull) ∧
    (∀ a : AsyncOptional B,
      (FlatMapAsyncArg.async a).thenOrElseNull
        = a.resolve.orElse Nullable.null) ∧
    (∀ p : Optional B,
      (FlatMapAsyncArg.promiseOfOptional p).thenOrElseNull
        = p.orElse Nullable.null) ∧
    (∀ (S : Type) (f : Nullable A → S → S × FlatMapAsyncArg B) (s : S),
      Optional.flatMapAsyncSt (Optional.absent : Optional A) f s
        = (s, AsyncOptional.absentAsync)) ∧
    (Optional.absent : Optional A).flatMapAsync t
      = AsyncOptional.absentAsync :=
  ⟨rfl, fun _ => rfl, fun _ => rfl, fun _ _ _ => rfl, rfl⟩

/-- Claim C6: every present optional produced by the public constructors
(`of` on a raw value, `empty`) or by the combinators `filter` and `map` (for
any transform, including null-returning ones) holds a non-null value; `of` on
an optional argument preserves the invariant; and the `Present` variant itself
performs no runtime check, so an ill-formed instance is constructible
directly — classification at construction is what enforces the invariant. -/
theorem present_invariant (A B : Type) (v : Nullable A) (o : Optional A)
    (p : Nullable A → Bool) (t : Nullable A → Nullable B)
    (ho : o.wellFormed) :
    (Optional.of (OfArg.raw v)).wellFormed ∧
    (Optional.empty : Optional A).wellFormed ∧
    (o.filter p).wellFormed ∧
    (o.map t).wellFormed ∧
    (Optional.of (OfArg.opt o)).wellFormed ∧
    ¬ (Optional.present (Nullable.null : Nullable A)).wellFormed := by
  have hof : ∀ {C : Type} (w : Nullable C), (Optional.of (OfArg.raw w)).wellFormed := by
    intro C w
    cases hw : w.isNullEquiv with
    | true => simp [Optional.of, hw, Optional.wellFormed]
    | false => simp [Optional.of, hw, Optional.wellFormed]
  refine ⟨hof v, trivial, ?_, ?_, ho, ?_⟩
  · cases o with
    | absent => simp [Optional.filter, Optional.wellFormed]
    | present w =>
      simp only [Optional.wellFormed] at ho
      by_cases hp : p w = true
      · simp [Optional.filter, hp, Optional.wellFormed, ho]
      · simp [Optional.filter, hp, Optional.wellFormed]
  · cases o with
    | absent => simp [Optional.map, Optional.wellFormed]
    | present w => exact hof (t w)
  · simp [Optional.wellFormed, Nullable.isNullEquiv]

/-- Claim C6 witness: the invariant holds for `of` at `1` and for a map
through a null-returning transform starting from a present optional
holding `2`. -/
theorem present_invariant_witness :
    (Optional.of (OfArg.raw (Nullable.val (1 : Nat)))).wellFormed ∧
    ((Optional.present (Nullable.val (2 : Nat))).map
        (fun _ => (Nullable.null : Nullable Nat))).wellFormed :=
  ⟨(present_invariant Nat Nat (Nullable.val 1) (Optional.present (Nullable.val 2))
      (fun _ => true) (fun _ => Nullable.null) rfl).1,
   (present_invariant Nat Nat (Nullable.val 1) (Optional.present (Nullable.val 2))
      (fun _ => true) (fun _ => Nullable.null) rfl).2.2.2.1⟩

/-- Claim C7: transforms passed to `map`, `flatMap` and `filter` on an absent
optional are never invoked — the callback state is untouched for every
callback; on a present optional each transform is invoked exactly once,
synchronously, at the held value: the result carries the state after exactly
one invocation, and a counting callback increments the state by exactly
one. -/
theorem transform_invocation (A B S : Type) (v : Nullable A) (s : S) (n : Nat)
    (fm : Nullable A → S → S × Nullable B)
    (ff : Nullable A → S → S × Optional B)
    (fp : Nullable A → S → S × Bool)
    (tm : Nullable A → Nullable B) (tf : Nullable A → Optional B)
    (tp : Nullable A → Bool) :
    Optional.mapSt (Optional.absent : Optional A) fm s = (s, Optional.absent) ∧
    Optional.flatMapSt (Optional.absent : Optional A) ff s = (s, Optional.absent) ∧
    Optional.filterSt (Optional.absent : Optional A) fp s = (s, Optional.absent) ∧
    Optional.mapSt (Optional.present v) fm s
      = ((fm v s).1, Optional.of (OfArg.raw (fm v s).2)) ∧
    Optional.flatMapSt (Optional.present v) ff s = ff v s ∧
    Optional.filterSt (Optional.present v) fp s
      = ((fp v s).1, if (fp v s).2 then Optional.present v else Optional.absent) ∧
    (Optional.mapSt (Optional.present v) (fun a k => (k + 1, tm a)) n).1 = n + 1 ∧
    (Optional.flatMapSt (Optional.present v) (fun a k => (k + 1, tf a)) n).1 = n + 1 ∧
    (Optional.filterSt (Optional.present v) (fun a k => (k + 1, tp a)) n).1 = n + 1 :=
  ⟨rfl, rfl, rfl, rfl, rfl, rfl, rfl, rfl, rfl⟩

/-- Claim C8: `orThrow` on a present optional returns the held value without
invoking the callback (state untouched); on an absent optional it invokes the
callback exactly once and raises the thrown or returned error, raising the
fixed `TypeError` when the callback produces no error, so on an absent
optional it never returns normally. -/
theorem orThrow_contract (A S : Type) (v : Nullable A) (s : S) (n : Nat)
    (f : Unit → ErrThrowerOutcome) (g : S → S × ErrThrowerOutcome)
    (e : JSError) :
    (Optional.present v).orThrow f = Except.ok v ∧
    Optional.orThrowSt (Optional.present v) g s = (s, Except.ok v) ∧
    (f () = ErrThrowerOutcome.thrown e →
      (Optional.absent : Optional A).orThrow f = Except.error e) ∧
    (f () = ErrThrowerOutcome.returnedError e →
      (Optional.absent : Optional A).orThrow f = Except.error e) ∧
    (f () = ErrThrowerOutcome.returnedNonError →
      (Optional.absent : Optional A).orThrow f
        = Except.error (JSError.typeError orThrowTypeErrorMsg)) ∧
    (∃ e2 : JSError,
      (Optional.absent : Optional A).orThrow f = Except.error e2) ∧
    (Optional.orThrowSt (Optional.absent : Optional A)
        (fun k => (k + 1, f ())) n).1 = n + 1 := by
  refine ⟨rfl, rfl, ?_, ?_, ?_, ?_, rfl⟩
  · intro h
    simp [Optional.orThrow, h]
  · intro h
    simp [Optional.orThrow, h]
  · intro h
    simp [Optional.orThrow, h]
  · cases h : f () with
    | thrown e2 => exact ⟨e2, by simp [Optional.orThrow, h]⟩
    | returnedError e2 => exact ⟨e2, by simp [Optional.orThrow, h]⟩
    | returnedNonError =>
      exact ⟨JSError.typeError orThrowTypeErrorMsg, by simp [Optional.orThrow, h]⟩

/-- Claim C8 witness: a callback returning an Error raises exactly that error
on an absent optional, and a present optional returns its value even under a
malformed callback. -/
theorem orThrow_contract_witness :
    (Optional.absent : Optional Nat).orThrow
        (fun _ => ErrThrowerOutcome.returnedError (JSError.error ("e")))
      = Except.error (JSError.error ("e")) ∧
    (Optional.present (Nullable.val (5 : Nat))).orThrow
        (fun _ => ErrThrowerOutcome.returnedNonError)
      = Except.ok (Nullable.val 5) :=
  ⟨(orThrow_contract Nat Unit (Nullable.val 5) () 0
      (fun _ => ErrThrowerOutcome.returnedError (JSError.error ("e")))
      (fun k => (k, ErrThrowerOutcome.returnedNonError))
      (JSError.error ("e"))).2.2.2.1 rfl,
   (orThrow_contract Nat Unit (Nullable.val 5) () 0
      (fun _ => ErrThrowerOutcome.returnedNonError)
      (fun k => (k, ErrThrowerOutcome.returnedNonError))
      (JSError.error ("e"))).1⟩

/-- Claim C9: `asJSON` and `toJSON` return the held value on a present
optional and exactly `null` (never `undefined`, never a missing key) on an
absent one; `Optional.of(5).asJSON()` is `5` and `Optional.empty().asJSON()`
is `null`. -/
theorem toJSON_asJSON_serialization (A : Type) (v : Nullable A) (key : String) :
    (Optional.present v).asJSON = v ∧
    (Optional.present v).toJSON key = v ∧
    (Optional.absent : Optional A).asJSON = Nullable.null ∧
    (Optional.absent : Optional A).toJSON key = Nullable.null ∧
    (Optional.of (OfArg.raw (Nullable.val (5 : Nat)))).asJSON = Nullable.val 5 ∧
    (Optional.empty : Optional Nat).asJSON = Nullable.null := by
  refine ⟨rfl, rfl, rfl, rfl, ?_, rfl⟩
  simp [Optional.of, Nullable.isNullEquiv, Optional.asJSON]

/-- Claim C10: `mapOut` (via `performMapOut`) writes, for each listed mapping,
exactly the one target property it names — the string itself for a same-type
mapping, `field` for a direct map, `to` for an indirect map — with the value
computed from the instance, and every property of the target not named by any
mapping keeps its previous value: pointwise, the result at a property is the
value of the last mapping targeting it when one exists, and the old target
value otherwise. -/
theorem mapOut_frame (V : Type) (inst target : String → V)
    (ms : List (MapOutArg V)) (k : String) :
    mapOut inst target ms k
      = (match lastMappingFor ms k with
         | some m => m.writtenValue inst
         | none => target k) := by
  induction ms generalizing target with
  | nil => rfl
  | cons m rest ih =>
    have hstep : mapOut inst target (m :: rest) k
        = mapOut inst (applyMapping inst target m) rest k := rfl
    rw [hstep, ih]
    cases h : lastMappingFor rest k with
    | some m2 => simp [lastMappingFor, h]
    | none =>
      rw [applyMapping_eq]
      simp only [lastMappingFor, h]
      by_cases hk : m.targetKey = k
      · simp [hk]
      · simp [hk]

end Designed
